import Mathlib

/-!
# Verification of the Recall scheduling and capture subsystem

Shallow embedding of the core subsystem of the Recall repository:

* the recurrence calculator (`calculateNextReminder`, `calculateNextCronTime`,
  `matchesCronField` from `src/main/index.ts`),
* the due-task scanner (`checkDueTasks` from `src/main/index.ts` together with
  `Database.markTaskNotified` / `Database.updateTaskRemindAt`),
* the clipboard capture watcher (`ClipboardWatcher` from `src/main/clipboard.ts`),
* the presentation toggle guards (`mainWindow.on("blur")` and the shortcut
  handler of `src/main/index.ts`),
* the record-store operations `Database.addClip` / `Database.addTask`.

Modelling conventions:

* JavaScript `Date` values are modelled as civil date-time records (`DateTime`)
  interpreted in a fixed zone (UTC), since the code manipulates calendar fields.
  `Date.prototype.setMonth` / `setDate` / `setHours` / `setMinutes` are modelled
  with ECMAScript `MakeDay`/`MakeTime` normalization semantics (out-of-range
  day-of-month overflows through month lengths, hour/minute carries roll over).
  ISO-8601 timestamp strings order exactly like the instants they denote, so the
  store's lexicographic string comparisons on `remind_at` are modelled by `≤` on
  `DateTime.toSecs`.
* Recurrence specifications stay what they are in the source: plain strings,
  parsed by the same pattern cascade as the TypeScript regexes.
* Effects (uuid generation, the wall clock, clipboard reads) are passed as
  explicit arguments.
-/

namespace Recall

/-! ## Gregorian calendar arithmetic (model of ECMAScript Date normalization) -/

/-- Leap year test of the proleptic Gregorian calendar (what `Date` uses). -/
def isLeap (y : Int) : Bool :=
  y % 4 == 0 && (y % 100 != 0 || y % 400 == 0)

/-- Length of month `m` (1-12) of year `y`; `new Date(y, m, 0).getDate()`. -/
def daysInMonth (y : Int) (m : Nat) : Nat :=
  match m with
  | 1 => 31
  | 2 => if isLeap y then 29 else 28
  | 3 => 31
  | 4 => 30
  | 5 => 31
  | 6 => 30
  | 7 => 31
  | 8 => 31
  | 9 => 30
  | 10 => 31
  | 11 => 30
  | 12 => 31
  | _ => 31

/-- Days of year `y` that precede the first of month `m` (1-12). -/
def cumDays (leap : Bool) (m : Nat) : Nat :=
  match m with
  | 1 => 0
  | 2 => 31
  | 3 => if leap then 60 else 59
  | 4 => if leap then 91 else 90
  | 5 => if leap then 121 else 120
  | 6 => if leap then 152 else 151
  | 7 => if leap then 182 else 181
  | 8 => if leap then 213 else 212
  | 9 => if leap then 244 else 243
  | 10 => if leap then 274 else 273
  | 11 => if leap then 305 else 304
  | 12 => if leap then 335 else 334
  | _ => 335

/-- Days from 0000-01-01 to the first day of year `y` (proleptic Gregorian). -/
def daysToYear (y : Int) : Int :=
  365 * y + (y - 1) / 4 - (y - 1) / 100 + (y - 1) / 400 + 1

/-- Day number of the civil date `y-m-d` counted from 0000-01-01. -/
def toDays (y : Int) (m : Nat) (d : Nat) : Int :=
  daysToYear y + (cumDays (isLeap y) m : Int) + (d : Int) - 1

/-- A civil date-time, the model of a JavaScript `Date` (UTC interpretation). -/
structure DateTime where
  year : Int
  month : Nat
  day : Nat
  hour : Nat
  minute : Nat
  second : Nat
deriving DecidableEq, Repr

/-- Valid civil date-times: every field within its calendar range. -/
def DateTime.Valid (t : DateTime) : Prop :=
  1 ≤ t.month ∧ t.month ≤ 12 ∧ 1 ≤ t.day ∧ t.day ≤ daysInMonth t.year t.month ∧
  t.hour ≤ 23 ∧ t.minute ≤ 59 ∧ t.second ≤ 59

instance (t : DateTime) : Decidable t.Valid := by
  unfold DateTime.Valid; infer_instance

/-- Seconds since 0000-01-01T00:00:00 (the time value of the `Date`). -/
def DateTime.toSecs (t : DateTime) : Int :=
  86400 * toDays t.year t.month t.day +
    3600 * (t.hour : Int) + 60 * (t.minute : Int) + (t.second : Int)

/-- The month after `(y, m)`. -/
def nextMonthYM (y : Int) (m : Nat) : Int × Nat :=
  if m = 12 then (y + 1, 1) else (y, m + 1)

/-- `d.setMonth(d.getMonth() + 1)`: same day-of-month in the next month; a
day-of-month that exceeds the next month's length overflows into the month
after it (ECMAScript `MakeDay` semantics; a single carry suffices since a valid
day-of-month is at most 31 and every month has at least 28 days). -/
def jsSetMonthPlus1 (t : DateTime) : DateTime :=
  if t.day ≤ daysInMonth (nextMonthYM t.year t.month).1 (nextMonthYM t.year t.month).2 then
    { t with year := (nextMonthYM t.year t.month).1,
             month := (nextMonthYM t.year t.month).2 }
  else
    { t with
      year := (nextMonthYM (nextMonthYM t.year t.month).1 (nextMonthYM t.year t.month).2).1,
      month := (nextMonthYM (nextMonthYM t.year t.month).1 (nextMonthYM t.year t.month).2).2,
      day := t.day - daysInMonth (nextMonthYM t.year t.month).1 (nextMonthYM t.year t.month).2 }

/-- `d.setDate(0)`: the last day of the month preceding `d`'s month. -/
def jsSetDate0 (t : DateTime) : DateTime :=
  if t.month = 1 then
    { t with year := t.year - 1, month := 12, day := 31 }
  else
    { t with month := t.month - 1, day := daysInMonth t.year (t.month - 1) }

/-- `d.setDate(d.getDate() + 1)` restricted to a single day step. -/
def nextDay (t : DateTime) : DateTime :=
  if t.day < daysInMonth t.year t.month then
    { t with day := t.day + 1 }
  else
    let (y1, m1) := nextMonthYM t.year t.month
    { t with year := y1, month := m1, day := 1 }

/-- `d.setDate(d.getDate() + k)`: advance `k` whole days. -/
def addDays (t : DateTime) : Nat → DateTime
  | 0 => t
  | k + 1 => addDays (nextDay t) k

/-- `d.setMinutes(d.getMinutes() + n)`: minute carry into hours and days. -/
def addMinutes (t : DateTime) (n : Nat) : DateTime :=
  let totalMin := t.minute + n
  let totalH := t.hour + totalMin / 60
  addDays { t with hour := totalH % 24, minute := totalMin % 60 } (totalH / 24)

/-- `d.setHours(d.getHours() + n)`: hour carry into days. -/
def addHours (t : DateTime) (n : Nat) : DateTime :=
  let totalH := t.hour + n
  addDays { t with hour := totalH % 24 } (totalH / 24)

/-- `d.getDay()`: day of week, 0 = Sunday. -/
def dayOfWeek (t : DateTime) : Nat :=
  ((toDays t.year t.month t.day + 6) % 7).toNat

/-! ## String parsing helpers (models of the TypeScript regexes)

The regexes of `src/main/index.ts` are modelled as functions over `List Char`;
`String` wrappers are provided at the interface. -/

/-- Value of a non-empty all-digit character list (`/^\d+$/` + `parseInt`). -/
def digitsToNat? (l : List Char) : Option Nat :=
  if l ≠ [] ∧ l.all Char.isDigit then
    some (l.foldl (fun acc c => 10 * acc + (c.toNat - 48)) 0)
  else none

/-- Split a character list at every occurrence of `c` (JS `String.split`). -/
def splitOnChar (c : Char) : List Char → List (List Char)
  | [] => [[]]
  | a :: as =>
    if a = c then [] :: splitOnChar c as
    else
      match splitOnChar c as with
      | [] => [[a]]
      | h :: t => (a :: h) :: t

/-- Drop leading and trailing whitespace (JS `String.prototype.trim`). -/
def trimChars (l : List Char) : List Char :=
  ((l.dropWhile Char.isWhitespace).reverse.dropWhile Char.isWhitespace).reverse

/-- Accumulating splitter for `wordsOf`. -/
def wordsAux : List Char → List Char → List (List Char)
  | [], acc => if acc = [] then [] else [acc.reverse]
  | c :: cs, acc =>
    if c.isWhitespace then
      if acc = [] then wordsAux cs [] else acc.reverse :: wordsAux cs []
    else wordsAux cs (c :: acc)

/-- Split on runs of whitespace after trimming (`trim().split(/\s+/)`). -/
def wordsOf (l : List Char) : List (List Char) :=
  wordsAux l []

/-- JS `parseInt(s)` after `trim()`: optional sign, then `0x` hexadecimal or a
maximal decimal digit prefix; `none` models `NaN`. -/
def jsParseInt (l : List Char) : Option Int :=
  let l := trimChars l
  let (sign, rest) : Int × List Char :=
    match l with
    | '-' :: r => (-1, r)
    | '+' :: r => (1, r)
    | r => (1, r)
  match rest with
  | '0' :: 'x' :: r | '0' :: 'X' :: r =>
    let ds := r.takeWhile (fun c => c.isDigit || ('a' ≤ c ∧ c ≤ 'f') || ('A' ≤ c ∧ c ≤ 'F'))
    if ds = [] then none
    else some (sign * (ds.foldl (fun acc c =>
      16 * acc + (if c.isDigit then c.toNat - 48
                  else if 'a' ≤ c then c.toNat - 87 else c.toNat - 55)) 0 : Nat))
  | _ =>
    let ds := rest.takeWhile Char.isDigit
    if ds = [] then none
    else some (sign * (ds.foldl (fun acc c => 10 * acc + (c.toNat - 48)) 0 : Nat))

/-- Model of `/^(\d+)-(\d+)$/`: an inclusive range `a-b`. -/
def parseRange (l : List Char) : Option (Nat × Nat) :=
  match splitOnChar '-' l with
  | [x, y] =>
    match digitsToNat? x, digitsToNat? y with
    | some a, some b => some (a, b)
    | _, _ => none
  | _ => none

/-- Left half of a step pattern: `*` or `a-b`. -/
inductive StepBase where
  | star : StepBase
  | range : Nat → Nat → StepBase
deriving DecidableEq, Repr

/-- Model of `/^(\*|\d+-\d+)\/(\d+)$/`: a step pattern `*​/n` or `a-b/n`. -/
def parseStep (l : List Char) : Option (StepBase × Nat) :=
  match splitOnChar '/' l with
  | [x, y] =>
    match digitsToNat? y with
    | some n =>
      if x = ['*'] then some (.star, n)
      else
        match parseRange x with
        | some (a, b) => some (.range a b, n)
        | none => none
    | none => none
  | _ => none

/-! ## `matchesCronField` (src/main/index.ts, lines 688-735) -/

/-- The step branch of `matchesCronField`.  JS computes `value % step` where
`step = 0` yields `NaN`, which never equals `0`; hence the `n ≠ 0` guards. -/
def stepMatches (base : StepBase) (n : Nat) (value : Nat) : Bool :=
  match base with
  | .star => n ≠ 0 && value % n == 0
  | .range a b => a ≤ value && value ≤ b && n ≠ 0 && (value - a) % n == 0

/-- `matchesCronField(field, value, min, max)`: the regex cascade of the source
(`*`, single number, range, step, comma list), in source order.  The `min`/`max`
arguments are accepted but, as in the source, never consulted. -/
def matchesCronFieldL (field : List Char) (value _min _max : Nat) : Bool :=
  if field = ['*'] then true
  else
    match digitsToNat? field with
    | some k => k == value
    | none =>
      match parseRange field with
      | some (a, b) => a ≤ value && value ≤ b
      | none =>
        match parseStep field with
        | some (base, n) => stepMatches base n value
        | none =>
          if field.contains ',' then
            ((splitOnChar ',' field).map (fun v => jsParseInt (trimChars v))).contains
              (some (value : Int))
          else false

/-- `matchesCronField` on `String`. -/
def matchesCronField (field : String) (value min max : Nat) : Bool :=
  matchesCronFieldL field.toList value min max

/-! ## `calculateNextCronTime` (src/main/index.ts, lines 615-682) -/

/-- One year's worth of minutes: `365 * 24 * 60`, the loop bound. -/
def maxIterations : Nat := 525600

/-- Does `t` satisfy all five cron fields?  Field order and the value ranges
mirror the checks of the scan loop. -/
def cronMatchesAt (mi h d mo dw : List Char) (t : DateTime) : Bool :=
  matchesCronFieldL mo (t.month) 1 12 &&
  matchesCronFieldL d (t.day) 1 31 &&
  matchesCronFieldL dw (dayOfWeek t) 0 6 &&
  matchesCronFieldL h (t.hour) 0 23 &&
  matchesCronFieldL mi (t.minute) 0 59

/-- Month advance of the scan: `setMonth(+1); setDate(1); setHours(0); setMinutes(0)`. -/
def cronMonthAdv (t : DateTime) : DateTime :=
  { jsSetMonthPlus1 t with day := 1, hour := 0, minute := 0 }

/-- Day advance of the scan: `setDate(getDate()+1); setHours(0); setMinutes(0)`. -/
def cronDayAdv (t : DateTime) : DateTime :=
  { nextDay t with hour := 0, minute := 0 }

/-- Hour advance of the scan: `setHours(getHours()+1); setMinutes(0)`. -/
def cronHourAdv (t : DateTime) : DateTime :=
  addHours { t with minute := 0 } 1

/-- The minute-scan loop of `calculateNextCronTime`; `none` models falling out
of the `while` after `maxIterations` iterations. -/
def cronLoop (mi h d mo dw : List Char) : Nat → DateTime → Option DateTime
  | 0, _ => none
  | fuel + 1, cur =>
    if ¬ matchesCronFieldL mo (cur.month) 1 12 then
      cronLoop mi h d mo dw fuel (cronMonthAdv cur)
    else if ¬ matchesCronFieldL d (cur.day) 1 31 then
      cronLoop mi h d mo dw fuel (cronDayAdv cur)
    else if ¬ matchesCronFieldL dw (dayOfWeek cur) 0 6 then
      cronLoop mi h d mo dw fuel (cronDayAdv cur)
    else if ¬ matchesCronFieldL h (cur.hour) 0 23 then
      cronLoop mi h d mo dw fuel (cronHourAdv cur)
    else if ¬ matchesCronFieldL mi (cur.minute) 0 59 then
      cronLoop mi h d mo dw fuel (addMinutes cur 1)
    else
      some cur

/-- `calculateNextCronTime(baseDate, cronExpr)`: split the expression into five
fields (otherwise fall back to `base + 1 hour`), start from the base with
seconds cleared plus one minute, and scan; scan exhaustion also falls back to
`base + 1 hour` (computed, as in the source, from the unmodified base). -/
def calculateNextCronTime (base : DateTime) (cronExpr : List Char) : DateTime :=
  match wordsOf cronExpr with
  | [mi, h, d, mo, dw] =>
    match cronLoop mi h d mo dw maxIterations (addMinutes { base with second := 0 } 1) with
    | some t => t
    | none => addHours base 1
  | _ => addHours base 1

/-! ## `calculateNextReminder` (src/main/index.ts, lines 542-608) -/

/-- Model of `/^(\d+)([hmd])$/`: a simple interval such as `5m`, `1h`, `2d`. -/
def parseSimple (l : List Char) : Option (Nat × Char) :=
  let ds := l.takeWhile Char.isDigit
  match l.dropWhile Char.isDigit with
  | [u] =>
    if (u = 'h' ∨ u = 'm' ∨ u = 'd') ∧ ds ≠ [] then
      some (ds.foldl (fun acc c => 10 * acc + (c.toNat - 48)) 0, u)
    else none
  | _ => none

/-- Model of `/^weekly:([a-z]{3})$/` combined with the `dayMap` lookup: `some`
exactly for the seven known abbreviations (an unknown abbreviation makes the
source fall through, just as a failed regex match does). -/
def parseWeekly (l : List Char) : Option Nat :=
  match l with
  | 'w' :: 'e' :: 'e' :: 'k' :: 'l' :: 'y' :: ':' :: rest =>
    if rest = ['s', 'u', 'n'] then some 0
    else if rest = ['m', 'o', 'n'] then some 1
    else if rest = ['t', 'u', 'e'] then some 2
    else if rest = ['w', 'e', 'd'] then some 3
    else if rest = ['t', 'h', 'u'] then some 4
    else if rest = ['f', 'r', 'i'] then some 5
    else if rest = ['s', 'a', 't'] then some 6
    else none
  | _ => none

/-- Argument of a `monthly:` pattern. -/
inductive MonthlyArg where
  | day : Nat → MonthlyArg
  | last : MonthlyArg
deriving DecidableEq, Repr

/-- Model of `/^monthly:(\d+|last)$/`. -/
def parseMonthly (l : List Char) : Option MonthlyArg :=
  match l with
  | 'm' :: 'o' :: 'n' :: 't' :: 'h' :: 'l' :: 'y' :: ':' :: rest =>
    if rest = ['l', 'a', 's', 't'] then some .last
    else (digitsToNat? rest).map .day
  | _ => none

/-- Model of `/^cron:(.+)$/`: the capture must be non-empty, and since JS `.`
matches no line terminator while `$` (without the `m` flag) anchors at the end
of input, a remainder containing `\n`, `\r`, U+2028 or U+2029 makes the regex
fail (the source then falls through and returns the base unchanged). -/
def parseCron (l : List Char) : Option (List Char) :=
  match l with
  | 'c' :: 'r' :: 'o' :: 'n' :: ':' :: rest =>
    if rest ≠ [] ∧ rest.all (fun c =>
        c ≠ '\n' && c ≠ '\r' && c ≠ '\u2028' && c ≠ '\u2029') then
      some rest
    else none
  | _ => none

/-- The monthly branch (lines 582-597): `setMonth(getMonth() + 1)` first, then
either `setDate(0); setMonth(getMonth() + 1)` for `last`, or clamp with
`setDate(Math.min(day, lastDayOfMonth))` where `lastDayOfMonth` is the length
of the month the (already advanced) date now lies in.  `Math.min(0, _) = 0`
makes `setDate(0)` reachable for `monthly:0`. -/
def monthlyNext (t : DateTime) (arg : MonthlyArg) : DateTime :=
  let t1 := jsSetMonthPlus1 t
  match arg with
  | .last => jsSetMonthPlus1 (jsSetDate0 t1)
  | .day d =>
    let lastDay := daysInMonth t1.year t1.month
    let k := min d lastDay
    if k = 0 then jsSetDate0 t1 else { t1 with day := k }

/-- `calculateNextReminder(currentRemindAt, interval)`: the pattern cascade of
the source, in source order; an unrecognized pattern returns the base date. -/
def calculateNextReminderL (base : DateTime) (interval : List Char) : DateTime :=
  match parseSimple interval with
  | some (n, u) =>
    if u = 'm' then addMinutes base n
    else if u = 'h' then addHours base n
    else addDays base n
  | none =>
    match parseWeekly interval with
    | some targetDay =>
      addDays base
        (if (targetDay + 7 - dayOfWeek base) % 7 = 0 then 7
         else (targetDay + 7 - dayOfWeek base) % 7)
    | none =>
      match parseMonthly interval with
      | some arg => monthlyNext base arg
      | none =>
        match parseCron interval with
        | some expr => calculateNextCronTime base (trimChars expr)
        | none => base

/-- `calculateNextReminder` on `String`. -/
def calculateNextReminder (base : DateTime) (interval : String) : DateTime :=
  calculateNextReminderL base interval.toList

/-- Is a recurrence string accepted by any of the four pattern branches of
`calculateNextReminder`?  (`cron:` with a non-empty remainder dispatches to the
cron evaluator even if the expression itself is malformed.) -/
def recognizedRecurrence (l : List Char) : Bool :=
  (parseSimple l).isSome || (parseWeekly l).isSome ||
  (parseMonthly l).isSome || (parseCron l).isSome

/-- Seconds per interval unit (`m`, `h`, `d`). -/
def unitSecs (u : Char) : Int :=
  if u = 'm' then 60 else if u = 'h' then 3600 else 86400

/-! ## Due-task scanner (src/main/index.ts `checkDueTasks`, lines 510-540, and
`Database.getDueTasks` / `markTaskNotified` / `updateTaskRemindAt` of
`src/unnamed/part_009`, lines 605-644) -/

/-- A row of the `tasks` table (the fields the scanner consults). -/
structure Task where
  id : String
  content : String
  title : String
  remindAt : DateTime
  completed : Bool
  notified : Bool
  recurringInterval : Option String
  snoozedUntil : Option DateTime
deriving DecidableEq, Repr

/-- The `getDueTasks` row filter: `completed = 0 AND notified = 0 AND
remind_at <= now AND (snoozed_until IS NULL OR snoozed_until <= now)`
(ISO-8601 strings compare like the instants they denote). -/
def isDue (now : DateTime) (t : Task) : Bool :=
  !t.completed && !t.notified && t.remindAt.toSecs ≤ now.toSecs &&
    (match t.snoozedUntil with
     | none => true
     | some s => s.toSecs ≤ now.toSecs)

/-- The per-task write of `checkDueTasks`: a recurring task gets
`updateTaskRemindAt(id, calculateNextReminder(...))`, which also resets
`notified = 0`; a one-shot task gets `markTaskNotified(id)`.  `getDueTasks`
coerces the stored recurrence with `recurringInterval || null` and
`checkDueTasks` tests `if (task.recurringInterval)`, so an empty-string
recurrence is falsy and takes the one-shot path. -/
def fireTask (t : Task) : Task :=
  match t.recurringInterval with
  | some interval =>
    if interval = "" then { t with notified := true }
    else
      { t with remindAt := calculateNextReminder t.remindAt interval,
               notified := false }
  | none => { t with notified := true }

/-- One scan tick over the whole table (per-row `UPDATE ... WHERE id = ?`;
rows are keyed by uuid, so the by-row map is the table-level effect). -/
def scanStep (now : DateTime) (t : Task) : Task :=
  if isDue now t then fireTask t else t

/-- One `checkDueTasks` run: the updated table and the tasks notified. -/
def checkDueTasks (now : DateTime) (tasks : List Task) : List Task × List Task :=
  (tasks.map (scanStep now), tasks.filter (isDue now))

/-- How often a given task is notified across a sequence of scan ticks. -/
def fireCount : List DateTime → Task → Nat
  | [], _ => 0
  | now :: rest, t =>
    if isDue now t then 1 + fireCount rest (fireTask t)
    else fireCount rest t

/-! ## Record store: `Database.addClip` / `Database.addTask`
(src/unnamed/part_009, lines 400-432 and 557-586; the current schema with
`type` and `image_data` columns) -/

/-- Clip kind: the `type` column. -/
inductive ClipType where
  | text : ClipType
  | image : ClipType
deriving DecidableEq, Repr

/-- A row of the `clips` table.  `imageData = none` models SQL `NULL` (the
insert coerces a missing or empty data string with `imageData || null`). -/
structure ClipRow where
  id : String
  content : String
  type : ClipType
  imageData : Option String
  createdAt : String
deriving DecidableEq, Repr

/-- The value returned to the caller of `addClip`. -/
structure Clip where
  id : String
  content : String
  type : ClipType
  imageData : Option String
  createdAt : String
deriving DecidableEq, Repr

/-- JS strict equality on a nullable column vs. a possibly-`undefined`
argument: `null === undefined` is `false`, so both sides must be present. -/
def jsStrictEqOpt (a b : Option String) : Bool :=
  match a, b with
  | some x, some y => x == y
  | _, _ => false

/-- The duplicate guard of `addClip` against the most recent row
(`SELECT ... ORDER BY created_at DESC LIMIT 1`). -/
def addClipDupGuard (ctype : ClipType) (content : String) (imageData : Option String)
    (recent : Option ClipRow) : Bool :=
  match recent with
  | none => false
  | some r =>
    (ctype == .image && r.type == .image && jsStrictEqOpt r.imageData imageData) ||
    (ctype == .text && r.content == content && r.type == .text)

/-- `Database.addClip(content, maxClips, type, imageData)`.  The table is the
list of rows, newest first (the `created_at DESC` order); `id`/`now` stand for
`uuid()` and `new Date().toISOString()`.  On a duplicate of the most recent
row the function returns a `Clip` with an empty `id` and leaves the table
untouched; otherwise it inserts and evicts the oldest rows beyond `maxClips`. -/
def addClip (db : List ClipRow) (content : String) (maxClips : Nat)
    (ctype : ClipType) (imageData : Option String) (id now : String) :
    List ClipRow × Clip :=
  if addClipDupGuard ctype content imageData db.head? then
    (db, { id := "", content := content, type := ctype, imageData := imageData,
           createdAt := now })
  else
    let stored := match imageData with
      | some s => if s = "" then none else some s
      | none => none
    let db1 := { id := id, content := content, type := ctype, imageData := stored,
                 createdAt := now } :: db
    let db2 := if db1.length > maxClips then db1.take maxClips else db1
    (db2, { id := id, content := content, type := ctype, imageData := imageData,
            createdAt := now })

/-- The content-kind-specific equality the C10 claim describes, taken from the
claim's words: matching kind; text compared by content; images compared by
image data as optional values (so two absent image datas count as equal). -/
def specKindEqual (ctype : ClipType) (content : String) (imageData : Option String)
    (r : ClipRow) : Bool :=
  ctype == r.type &&
  (match ctype with
   | .text => content == r.content
   | .image => imageData == r.imageData)

/-- `Database.addTask(content, title, remindAt, recurringInterval, priority,
category)`: an unconditional `INSERT` — there is no validation of
`recurringInterval` anywhere on the creation path (the `add-task` IPC handler
passes its arguments straight through). -/
def addTask (tasks : List Task) (content title : String) (remindAt : DateTime)
    (recurringInterval : Option String) (id : String) : List Task × Task :=
  let t : Task :=
    { id := id, content := content, title := title, remindAt := remindAt,
      completed := false, notified := false,
      recurringInterval := recurringInterval, snoozedUntil := none }
  (t :: tasks, t)

/-! ## Clipboard capture watcher (src/main/clipboard.ts, lines 38-86) -/

/-- An image on the external clipboard (its rendered data URL and size). -/
structure NativeImage where
  width : Nat
  height : Nat
  dataURL : String
deriving DecidableEq, Repr

/-- `getImageHash`: size plus a 100-character sample of the data URL. -/
def getImageHash (img : NativeImage) : String :=
  toString img.width ++ "x" ++ toString img.height ++ "-" ++ img.dataURL.take 100

/-- What one poll tick can read from the external clipboard: `readText()` and
`readImage()` (`image = none` models `image.isEmpty()`). -/
structure ClipboardRead where
  text : String
  image : Option NativeImage
deriving DecidableEq, Repr

/-- The mutable fields of `ClipboardWatcher` touched by the tick. -/
structure WatcherState where
  lastContent : String
  lastImageHash : String
  paused : Bool
  ignoreNextChange : Bool
deriving DecidableEq, Repr

/-- A capture event passed to `onClip`. -/
inductive ClipEvent where
  | text : String → ClipEvent
  | image : String → String → ClipEvent
deriving DecidableEq, Repr

/-- One poll tick of `ClipboardWatcher.start` given the current external
clipboard content: the new state and the emitted event, if any. -/
def watcherTick (s : WatcherState) (c : ClipboardRead) :
    WatcherState × Option ClipEvent :=
  if s.paused then (s, none)
  else
    match c.image with
    | some img =>
      if s.ignoreNextChange then
        ({ s with ignoreNextChange := false, lastImageHash := getImageHash img,
                  lastContent := c.text }, none)
      else if getImageHash img ≠ s.lastImageHash then
        ({ s with lastImageHash := getImageHash img, lastContent := c.text },
         some (.image ("Image (" ++ toString img.width ++ "x" ++
                       toString img.height ++ ")") img.dataURL))
      else if c.text ≠ "" ∧ c.text ≠ s.lastContent then
        ({ s with lastContent := c.text }, some (.text c.text))
      else (s, none)
    | none =>
      if s.ignoreNextChange then
        ({ s with ignoreNextChange := false, lastContent := c.text }, none)
      else if c.text ≠ "" ∧ c.text ≠ s.lastContent then
        ({ s with lastContent := c.text }, some (.text c.text))
      else (s, none)

/-- Did the tick suppress a change because of `ignoreNextChange`? -/
def tickSuppressed (s : WatcherState) : Bool :=
  !s.paused && s.ignoreNextChange

/-- The hash the image tracker would have to hold to reflect clipboard `c`
(`""` is what the constructor and `resume()` store when no image is present). -/
def currentImageHash (c : ClipboardRead) : String :=
  match c.image with
  | none => ""
  | some img => getImageHash img

/-- A read failure (a thrown exception). -/
structure ReadError where
  message : String
deriving DecidableEq, Repr

/-- One poll tick with fallible reads.  `rimg` models `clipboard.readImage()`
(called first, line 45) and `rtxt` models `clipboard.readText()`.  The source
has no `try`/`catch`: a throw aborts the callback, keeping whatever field
mutations already happened; the third component is the escaping exception. -/
def watcherTickE (s : WatcherState) (rimg : Except ReadError (Option NativeImage))
    (rtxt : Except ReadError String) :
    WatcherState × Option ClipEvent × Option ReadError :=
  if s.paused then (s, none, none)
  else
    match rimg with
    | .error e => (s, none, some e)
    | .ok img =>
      if s.ignoreNextChange then
        let s1 := { s with ignoreNextChange := false,
                           lastImageHash := match img with
                             | some i => getImageHash i
                             | none => s.lastImageHash }
        match rtxt with
        | .error e => (s1, none, some e)
        | .ok t => ({ s1 with lastContent := t }, none, none)
      else
        match img with
        | some i =>
          if getImageHash i ≠ s.lastImageHash then
            let s1 := { s with lastImageHash := getImageHash i }
            let ev := ClipEvent.image ("Image (" ++ toString i.width ++ "x" ++
                                       toString i.height ++ ")") i.dataURL
            match rtxt with
            | .error e => (s1, some ev, some e)
            | .ok t => ({ s1 with lastContent := t }, some ev, none)
          else
            match rtxt with
            | .error e => (s, none, some e)
            | .ok t =>
              if t ≠ "" ∧ t ≠ s.lastContent then
                ({ s with lastContent := t }, some (.text t), none)
              else (s, none, none)
        | none =>
          match rtxt with
          | .error e => (s, none, some e)
          | .ok t =>
            if t ≠ "" ∧ t ≠ s.lastContent then
              ({ s with lastContent := t }, some (.text t), none)
            else (s, none, none)

/-! ## Presentation toggle guards (src/main/index.ts: the `blur` handler,
lines 110-119; `lastToggleTime`/`isToggling` writes of the shortcut handler,
lines 143-145 and 264-267) -/

/-- The module-level window state consulted by the `blur` handler. -/
structure ToggleState where
  visible : Bool
  isToggling : Bool
  lastToggleTime : Int
deriving DecidableEq, Repr

/-- The `blur` handler: hide unless `isToggling` is set or the blur arrives
within 200 ms of the last toggle. -/
def blurStep (s : ToggleState) (now : Int) : ToggleState :=
  if s.isToggling ∨ now - s.lastToggleTime < 200 then s
  else { s with visible := false }

/-- The shortcut handler's show path writes `lastToggleTime = now` and
`isToggling = true` immediately (lines 143-145). -/
def hotkeyShow (s : ToggleState) (now : Int) : ToggleState :=
  { s with visible := true, isToggling := true, lastToggleTime := now }

/-- The `setTimeout(() => { isToggling = false }, 500)` scheduled by the show
path (lines 264-267). -/
def resetToggling (s : ToggleState) : ToggleState :=
  { s with isToggling := false }

/-- The toggle state observed at `now` after a hotkey-show at time `T` with no
intervening events: the 500 ms reset timer has run exactly when 500 ms have
elapsed. -/
def stateAfterShow (s : ToggleState) (T now : Int) : ToggleState :=
  if now - T ≥ 500 then resetToggling (hotkeyShow s T) else hotkeyShow s T

/-! ## Calendar lemmas -/

theorem isLeap_spec (y : Int) :
    isLeap y = true ↔ (y % 4 = 0 ∧ (y % 100 ≠ 0 ∨ y % 400 = 0)) := by
  simp [isLeap]

theorem daysInMonth_bounds (y : Int) (m : Nat) :
    28 ≤ daysInMonth y m ∧ daysInMonth y m ≤ 31 := by
  unfold daysInMonth
  split <;> first | omega | (split <;> omega)

theorem daysToYear_succ (y : Int) :
    daysToYear (y + 1) = daysToYear y + (if isLeap y then 366 else 365) := by
  unfold daysToYear
  by_cases hl : isLeap y = true
  · have h : y % 4 = 0 ∧ (y % 100 ≠ 0 ∨ y % 400 = 0) := (isLeap_spec y).mp hl
    rw [if_pos hl]
    omega
  · have h : ¬(y % 4 = 0 ∧ (y % 100 ≠ 0 ∨ y % 400 = 0)) :=
      fun hc => hl ((isLeap_spec y).mpr hc)
    rw [if_neg hl]
    omega

theorem cumDays_succ (y : Int) (m : Nat) (h1 : 1 ≤ m) (h2 : m ≤ 11) :
    cumDays (isLeap y) (m + 1) = cumDays (isLeap y) m + daysInMonth y m := by
  interval_cases m <;> cases hl : isLeap y <;> simp [cumDays, daysInMonth, hl]

theorem cumDays_one (b : Bool) : cumDays b 1 = 0 := rfl

theorem cumDays_twelve (y : Int) :
    (cumDays (isLeap y) 12 : Int) = (if isLeap y then 366 else 365) - 31 := by
  cases hl : isLeap y <;> simp [cumDays, hl]

theorem toDays_day (y : Int) (m d : Nat) :
    toDays y m d = toDays y m 1 + (d : Int) - 1 := by
  unfold toDays; omega

theorem toDays_nextMonthYM (y : Int) (m : Nat) (h1 : 1 ≤ m) (h2 : m ≤ 12) :
    toDays (nextMonthYM y m).1 (nextMonthYM y m).2 1 =
      toDays y m 1 + daysInMonth y m := by
  by_cases hm : m = 12
  · subst hm
    simp only [nextMonthYM, if_true]
    unfold toDays
    rw [daysToYear_succ]
    have h12 := cumDays_twelve y
    have h1l : cumDays (isLeap (y + 1)) 1 = 0 := cumDays_one _
    have h1l' : cumDays (isLeap y) 1 = 0 := cumDays_one _
    simp only [daysInMonth]
    omega
  · have hm' : m + 1 ≤ 12 := by omega
    simp only [nextMonthYM, if_neg hm]
    unfold toDays
    have := cumDays_succ y m h1 (by omega)
    omega

theorem nextMonthYM_range (y : Int) (m : Nat) (h1 : 1 ≤ m) (h2 : m ≤ 12) :
    1 ≤ (nextMonthYM y m).2 ∧ (nextMonthYM y m).2 ≤ 12 := by
  unfold nextMonthYM
  split
  · simp
  · simp
    omega

/-! ## Date-time operation lemmas -/

theorem toDays_nextDay (t : DateTime) (h : t.Valid) :
    toDays (nextDay t).year (nextDay t).month (nextDay t).day =
      toDays t.year t.month t.day + 1 := by
  obtain ⟨hm1, hm2, hd1, hd2, -, -, -⟩ := h
  unfold nextDay
  by_cases hlt : t.day < daysInMonth t.year t.month
  · rw [if_pos hlt]
    simp only
    rw [toDays_day t.year t.month (t.day + 1), toDays_day t.year t.month t.day]
    omega
  · rw [if_neg hlt]
    have hd : t.day = daysInMonth t.year t.month := by omega
    have hnext := toDays_nextMonthYM t.year t.month hm1 hm2
    simp only
    rw [toDays_day t.year t.month t.day] at *
    omega

theorem nextDay_valid (t : DateTime) (h : t.Valid) : (nextDay t).Valid := by
  obtain ⟨hm1, hm2, hd1, hd2, hh, hmi, hs⟩ := h
  unfold nextDay
  by_cases hlt : t.day < daysInMonth t.year t.month
  · rw [if_pos hlt]
    refine ⟨hm1, hm2, ?_, ?_, hh, hmi, hs⟩
    · simp only
      omega
    · simp only
      omega
  · rw [if_neg hlt]
    have hr := nextMonthYM_range t.year t.month hm1 hm2
    have hb := daysInMonth_bounds (nextMonthYM t.year t.month).1
      (nextMonthYM t.year t.month).2
    refine ⟨hr.1, hr.2, ?_, ?_, hh, hmi, hs⟩
    · simp only
      omega
    · simp only
      omega

theorem nextDay_time (t : DateTime) :
    (nextDay t).hour = t.hour ∧ (nextDay t).minute = t.minute ∧
      (nextDay t).second = t.second := by
  unfold nextDay
  split <;> exact ⟨rfl, rfl, rfl⟩

theorem toSecs_nextDay (t : DateTime) (h : t.Valid) :
    (nextDay t).toSecs = t.toSecs + 86400 := by
  have hd := toDays_nextDay t h
  have ht := nextDay_time t
  unfold DateTime.toSecs
  rw [hd, ht.1, ht.2.1, ht.2.2]
  ring

theorem addDays_spec (k : Nat) :
    ∀ t : DateTime, t.Valid →
      (addDays t k).Valid ∧ (addDays t k).toSecs = t.toSecs + 86400 * k := by
  induction k with
  | zero => intro t h; exact ⟨h, by simp [addDays]⟩
  | succ n ih =>
    intro t h
    have hv := nextDay_valid t h
    have hs := toSecs_nextDay t h
    have := ih (nextDay t) hv
    refine ⟨this.1, ?_⟩
    show (addDays (nextDay t) n).toSecs = _
    rw [this.2, hs]
    push_cast
    ring

theorem addMinutes_spec (t : DateTime) (n : Nat) (h : t.Valid) :
    (addMinutes t n).Valid ∧ (addMinutes t n).toSecs = t.toSecs + 60 * n := by
  obtain ⟨hm1, hm2, hd1, hd2, hh, hmi, hs⟩ := h
  unfold addMinutes
  set totalMin := t.minute + n with hTM
  set totalH := t.hour + totalMin / 60 with hTH
  have hv : ({ t with hour := totalH % 24, minute := totalMin % 60 } : DateTime).Valid := by
    refine ⟨hm1, hm2, hd1, hd2, ?_, ?_, hs⟩
    · simp only
      omega
    · simp only
      omega
  have := addDays_spec (totalH / 24) _ hv
  refine ⟨this.1, ?_⟩
  rw [this.2]
  unfold DateTime.toSecs
  simp only
  push_cast
  have h60 : (totalMin % 60 : Int) = (totalMin : Int) - 60 * (totalMin / 60 : Nat) := by
    push_cast; omega
  have h24 : (totalH % 24 : Int) = (totalH : Int) - 24 * (totalH / 24 : Nat) := by
    push_cast; omega
  rw [h60, h24]
  push_cast [hTH, hTM]
  ring

theorem addHours_spec (t : DateTime) (n : Nat) (h : t.Valid) :
    (addHours t n).Valid ∧ (addHours t n).toSecs = t.toSecs + 3600 * n := by
  obtain ⟨hm1, hm2, hd1, hd2, hh, hmi, hs⟩ := h
  unfold addHours
  set totalH := t.hour + n with hTH
  have hv : ({ t with hour := totalH % 24 } : DateTime).Valid := by
    refine ⟨hm1, hm2, hd1, hd2, ?_, hmi, hs⟩
    simp only
    omega
  have := addDays_spec (totalH / 24) _ hv
  refine ⟨this.1, ?_⟩
  rw [this.2]
  unfold DateTime.toSecs
  simp only
  push_cast
  have h24 : (totalH % 24 : Int) = (totalH : Int) - 24 * (totalH / 24 : Nat) := by
    push_cast; omega
  rw [h24]
  push_cast [hTH]
  ring

theorem jsSetMonthPlus1_spec (t : DateTime) (h : t.Valid) :
    (jsSetMonthPlus1 t).Valid ∧
    toDays t.year t.month 1 + daysInMonth t.year t.month ≤
      toDays (jsSetMonthPlus1 t).year (jsSetMonthPlus1 t).month 1 ∧
    (jsSetMonthPlus1 t).hour = t.hour ∧ (jsSetMonthPlus1 t).minute = t.minute ∧
    (jsSetMonthPlus1 t).second = t.second := by
  obtain ⟨hm1, hm2, hd1, hd2, hh, hmi, hs⟩ := h
  have hnext := toDays_nextMonthYM t.year t.month hm1 hm2
  have hr := nextMonthYM_range t.year t.month hm1 hm2
  have hb0 := daysInMonth_bounds t.year t.month
  have hb1 := daysInMonth_bounds (nextMonthYM t.year t.month).1
    (nextMonthYM t.year t.month).2
  have hnext2 := toDays_nextMonthYM (nextMonthYM t.year t.month).1
    (nextMonthYM t.year t.month).2 hr.1 hr.2
  have hr2 := nextMonthYM_range (nextMonthYM t.year t.month).1
    (nextMonthYM t.year t.month).2 hr.1 hr.2
  have hb2 := daysInMonth_bounds
    (nextMonthYM (nextMonthYM t.year t.month).1 (nextMonthYM t.year t.month).2).1
    (nextMonthYM (nextMonthYM t.year t.month).1 (nextMonthYM t.year t.month).2).2
  unfold jsSetMonthPlus1
  by_cases hc : t.day ≤ daysInMonth (nextMonthYM t.year t.month).1
      (nextMonthYM t.year t.month).2
  · rw [if_pos hc]
    refine ⟨⟨hr.1, hr.2, ?_, ?_, hh, hmi, hs⟩, ?_, rfl, rfl, rfl⟩
    · simp only
      omega
    · simp only
      omega
    · simp only
      omega
  · rw [if_neg hc]
    refine ⟨⟨hr2.1, hr2.2, ?_, ?_, hh, hmi, hs⟩, ?_, rfl, rfl, rfl⟩
    · simp only
      omega
    · simp only
      omega
    · simp only
      omega

theorem jsSetDate0_spec (t : DateTime) (h : t.Valid) :
    (jsSetDate0 t).Valid ∧
    toDays (jsSetDate0 t).year (jsSetDate0 t).month (jsSetDate0 t).day =
      toDays t.year t.month 1 - 1 ∧
    nextMonthYM (jsSetDate0 t).year (jsSetDate0 t).month = (t.year, t.month) ∧
    (jsSetDate0 t).hour = t.hour ∧ (jsSetDate0 t).minute = t.minute ∧
    (jsSetDate0 t).second = t.second := by
  obtain ⟨hm1, hm2, hd1, hd2, hh, hmi, hs⟩ := h
  unfold jsSetDate0
  by_cases hc : t.month = 1
  · rw [if_pos hc]
    refine ⟨⟨?_, ?_, ?_, ?_, hh, hmi, hs⟩, ?_, ?_, rfl, rfl, rfl⟩
    · simp only
      omega
    · simp only
      omega
    · simp only
      omega
    · simp only
      exact Nat.le.refl
    · simp only
      rw [hc]
      unfold toDays
      have hstep := daysToYear_succ (t.year - 1)
      have h12 := cumDays_twelve (t.year - 1)
      have hy : t.year - 1 + 1 = t.year := by omega
      rw [hy] at hstep
      have h1a : cumDays (isLeap (t.year - 1)) 12 =
          (if isLeap (t.year - 1) then 366 else 365) - 31 := by
        cases hl : isLeap (t.year - 1) <;> simp [cumDays, hl]
      have h1b : cumDays (isLeap t.year) 1 = 0 := cumDays_one _
      by_cases hl : isLeap (t.year - 1) = true <;>
        [rw [if_pos hl] at hstep h1a; rw [if_neg hl] at hstep h1a] <;> omega
    · simp only
      rw [hc]
      unfold nextMonthYM
      rw [if_pos rfl]
      have hy : t.year - 1 + 1 = t.year := by omega
      rw [hy]
  · rw [if_neg hc]
    have hsub : t.month - 1 + 1 = t.month := by omega
    have hstep := cumDays_succ t.year (t.month - 1) (by omega) (by omega)
    rw [hsub] at hstep
    refine ⟨⟨?_, ?_, ?_, ?_, hh, hmi, hs⟩, ?_, ?_, rfl, rfl, rfl⟩
    · simp only
      omega
    · simp only
      omega
    · simp only
      have := daysInMonth_bounds t.year (t.month - 1)
      omega
    · simp only
      omega
    · simp only
      unfold toDays
      omega
    · simp only
      unfold nextMonthYM
      rw [if_neg (by omega)]
      rw [hsub]

theorem monthlyNext_spec (t : DateTime) (arg : MonthlyArg) (h : t.Valid) :
    (monthlyNext t arg).Valid ∧ t.toSecs ≤ (monthlyNext t arg).toSecs ∧
      (arg ≠ .day 0 → t.toSecs < (monthlyNext t arg).toSecs) := by
  obtain ⟨hv1, hge1, hhr1, hmin1, hsec1⟩ := jsSetMonthPlus1_spec t h
  obtain ⟨hm1, hm2, hd1, hd2, hh, hmi, hs⟩ := h
  have hdfull := toDays_day t.year t.month t.day
  have hb0 := daysInMonth_bounds t.year t.month
  have hb1 := daysInMonth_bounds (jsSetMonthPlus1 t).year (jsSetMonthPlus1 t).month
  cases arg with
  | day d =>
    simp only [monthlyNext]
    by_cases hk : min d (daysInMonth (jsSetMonthPlus1 t).year (jsSetMonthPlus1 t).month) = 0
    · rw [if_pos hk]
      have hd0 : d = 0 := by omega
      obtain ⟨hv2, hday2, -, hhr2, hmin2, hsec2⟩ := jsSetDate0_spec _ hv1
      refine ⟨hv2, ?_, ?_⟩
      · unfold DateTime.toSecs
        rw [hday2, hhr2, hmin2, hsec2, hhr1, hmin1, hsec1]
        omega
      · intro hne
        exact absurd (by rw [hd0]) hne
    · rw [if_neg hk]
      obtain ⟨hm1', hm2', hd1', hd2', hh', hmi', hs'⟩ := hv1
      have hklast : min d (daysInMonth (jsSetMonthPlus1 t).year (jsSetMonthPlus1 t).month) ≤
          daysInMonth (jsSetMonthPlus1 t).year (jsSetMonthPlus1 t).month := min_le_right _ _
      have hres := toDays_day (jsSetMonthPlus1 t).year (jsSetMonthPlus1 t).month
        (min d (daysInMonth (jsSetMonthPlus1 t).year (jsSetMonthPlus1 t).month))
      have hlt : t.toSecs <
          ({ jsSetMonthPlus1 t with
              day := min d (daysInMonth (jsSetMonthPlus1 t).year (jsSetMonthPlus1 t).month) }
            : DateTime).toSecs := by
        unfold DateTime.toSecs
        simp only
        rw [hres, hhr1, hmin1, hsec1]
        omega
      refine ⟨⟨hm1', hm2', ?_, ?_, hh', hmi', hs'⟩, le_of_lt hlt, fun _ => hlt⟩
      · simp only
        omega
      · simp only
        omega
  | last =>
    simp only [monthlyNext]
    obtain ⟨hv2, hday2, hnm2, hhr2, hmin2, hsec2⟩ := jsSetDate0_spec _ hv1
    obtain ⟨hv3, hge3, hhr3, hmin3, hsec3⟩ := jsSetMonthPlus1_spec _ hv2
    obtain ⟨hm1'', hm2'', hd1'', hd2'', hh'', hmi'', hs''⟩ := hv2
    have hnmdays := toDays_nextMonthYM (jsSetDate0 (jsSetMonthPlus1 t)).year
      (jsSetDate0 (jsSetMonthPlus1 t)).month hm1'' hm2''
    rw [hnm2] at hnmdays
    simp only at hnmdays
    have hdres := toDays_day (jsSetMonthPlus1 (jsSetDate0 (jsSetMonthPlus1 t))).year
      (jsSetMonthPlus1 (jsSetDate0 (jsSetMonthPlus1 t))).month
      (jsSetMonthPlus1 (jsSetDate0 (jsSetMonthPlus1 t))).day
    have hd1''' := hv3.2.2.1
    have hlt : t.toSecs < (jsSetMonthPlus1 (jsSetDate0 (jsSetMonthPlus1 t))).toSecs := by
      unfold DateTime.toSecs

      rw [hdres, hhr3, hmin3, hsec3, hhr2, hmin2, hsec2, hhr1, hmin1, hsec1]
      omega
    exact ⟨hv3, le_of_lt hlt, fun _ => hlt⟩

/-! ## Strict progress of the cron scan advances -/

theorem cronMonthAdv_spec (t : DateTime) (h : t.Valid) :
    (cronMonthAdv t).Valid ∧ t.toSecs < (cronMonthAdv t).toSecs := by
  obtain ⟨hv1, hge1, hhr1, hmin1, hsec1⟩ := jsSetMonthPlus1_spec t h
  obtain ⟨hm1, hm2, hd1, hd2, hh, hmi, hs⟩ := h
  obtain ⟨hm1', hm2', -, -, -, -, hs'⟩ := hv1
  have hb1 := daysInMonth_bounds (jsSetMonthPlus1 t).year (jsSetMonthPlus1 t).month
  have hdfull := toDays_day t.year t.month t.day
  unfold cronMonthAdv
  constructor
  · refine ⟨hm1', hm2', ?_, ?_, ?_, ?_, hs'⟩ <;> simp only <;> omega
  · unfold DateTime.toSecs
    simp only
    rw [hsec1]
    omega

theorem cronDayAdv_spec (t : DateTime) (h : t.Valid) :
    (cronDayAdv t).Valid ∧ t.toSecs < (cronDayAdv t).toSecs := by
  have hnv := nextDay_valid t h
  have hnd := toDays_nextDay t h
  have hnt := nextDay_time t
  obtain ⟨hm1, hm2, hd1, hd2, hh, hmi, hs⟩ := h
  obtain ⟨hm1', hm2', hd1', hd2', hh', hmi', hs'⟩ := hnv
  unfold cronDayAdv
  constructor
  · refine ⟨hm1', hm2', hd1', hd2', ?_, ?_, hs'⟩ <;> simp only <;> omega
  · unfold DateTime.toSecs
    simp only
    rw [hnd, hnt.2.2]
    omega

theorem cronHourAdv_spec (t : DateTime) (h : t.Valid) :
    (cronHourAdv t).Valid ∧ t.toSecs < (cronHourAdv t).toSecs := by
  obtain ⟨hm1, hm2, hd1, hd2, hh, hmi, hs⟩ := h
  have hv0 : ({ t with minute := 0 } : DateTime).Valid := by
    refine ⟨hm1, hm2, hd1, hd2, hh, ?_, hs⟩
    simp only
    omega
  have hadd := addHours_spec { t with minute := 0 } 1 hv0
  unfold cronHourAdv
  refine ⟨hadd.1, ?_⟩
  rw [hadd.2]
  unfold DateTime.toSecs
  simp only
  omega

theorem addMinutesOne_spec (t : DateTime) (h : t.Valid) :
    (addMinutes t 1).Valid ∧ t.toSecs < (addMinutes t 1).toSecs := by
  have := addMinutes_spec t 1 h
  exact ⟨this.1, by omega⟩

theorem cronLoop_spec (mi h d mo dw : List Char) (base : DateTime) :
    ∀ (fuel : Nat) (cur : DateTime), cur.Valid → base.toSecs < cur.toSecs →
      ∀ r, cronLoop mi h d mo dw fuel cur = some r →
        r.Valid ∧ base.toSecs < r.toSecs ∧ cronMatchesAt mi h d mo dw r = true := by
  intro fuel
  induction fuel with
  | zero =>
    intro cur _ _ r hr
    simp [cronLoop] at hr
  | succ n ih =>
    intro cur hv hlt r hr
    rw [cronLoop] at hr
    split at hr
    · have hstep := cronMonthAdv_spec cur hv
      exact ih _ hstep.1 (lt_trans hlt hstep.2) r hr
    · split at hr
      · have hstep := cronDayAdv_spec cur hv
        exact ih _ hstep.1 (lt_trans hlt hstep.2) r hr
      · split at hr
        · have hstep := cronDayAdv_spec cur hv
          exact ih _ hstep.1 (lt_trans hlt hstep.2) r hr
        · split at hr
          · have hstep := cronHourAdv_spec cur hv
            exact ih _ hstep.1 (lt_trans hlt hstep.2) r hr
          · split at hr
            · have hstep := addMinutesOne_spec cur hv
              exact ih _ hstep.1 (lt_trans hlt hstep.2) r hr
            · cases hr
              refine ⟨hv, hlt, ?_⟩
              unfold cronMatchesAt
              simp only [Bool.and_eq_true]
              and_intros <;> simp_all

theorem calculateNextCronTime_spec (base : DateTime) (expr : List Char)
    (hb : base.Valid) :
    (calculateNextCronTime base expr).Valid ∧
    base.toSecs < (calculateNextCronTime base expr).toSecs ∧
    ((∃ mi h d mo dw, wordsOf expr = [mi, h, d, mo, dw] ∧
        cronMatchesAt mi h d mo dw (calculateNextCronTime base expr) = true) ∨
      calculateNextCronTime base expr = addHours base 1) := by
  have hfall := addHours_spec base 1 hb
  obtain ⟨hm1, hm2, hd1, hd2, hh, hmi, hs⟩ := hb
  unfold calculateNextCronTime
  split
  case h_1 mi h d mo dw heq =>
    have hv0 : ({ base with second := 0 } : DateTime).Valid := by
      refine ⟨hm1, hm2, hd1, hd2, hh, hmi, ?_⟩
      simp only
      omega
    have hstart := addMinutes_spec { base with second := 0 } 1 hv0
    have hstart_lt : base.toSecs < (addMinutes { base with second := 0 } 1).toSecs := by
      rw [hstart.2]
      unfold DateTime.toSecs
      simp only
      omega
    split
    case h_1 r hr =>
      have hloop := cronLoop_spec mi h d mo dw base maxIterations _ hstart.1 hstart_lt r hr
      exact ⟨hloop.1, hloop.2.1, Or.inl ⟨mi, h, d, mo, dw, heq, hloop.2.2⟩⟩
    case h_2 hr =>
      exact ⟨hfall.1, by omega, Or.inr rfl⟩
  case h_2 hne =>
    exact ⟨hfall.1, by omega, Or.inr rfl⟩

/-! ## Behavior of `calculateNextReminder` by recurrence class -/

theorem nextReminder_simple_eq (base : DateTime) (l : List Char) (n : Nat) (u : Char)
    (hb : base.Valid) (hp : parseSimple l = some (n, u)) :
    (calculateNextReminderL base l).toSecs = base.toSecs + (n : Int) * unitSecs u := by
  unfold calculateNextReminderL
  rw [hp]
  simp only
  unfold unitSecs
  by_cases hm : u = 'm'
  · rw [if_pos hm, if_pos hm]
    rw [(addMinutes_spec base n hb).2]
    ring
  · rw [if_neg hm, if_neg hm]
    by_cases hh : u = 'h'
    · rw [if_pos hh, if_pos hh]
      rw [(addHours_spec base n hb).2]
      ring
    · rw [if_neg hh, if_neg hh]
      rw [(addDays_spec n base hb).2]
      ring

theorem nextReminder_ge (base : DateTime) (l : List Char) (hb : base.Valid) :
    base.toSecs ≤ (calculateNextReminderL base l).toSecs := by
  unfold calculateNextReminderL
  split
  case h_1 p n u heq =>
    have h1 := addMinutes_spec base n hb
    have h2 := addHours_spec base n hb
    have h3 := addDays_spec n base hb
    split
    · omega
    · split
      · omega
      · omega
  case h_2 =>
    split
    case h_1 td heq =>
      have h3 := addDays_spec
        (if (td + 7 - dayOfWeek base) % 7 = 0 then 7 else (td + 7 - dayOfWeek base) % 7)
        base hb
      omega
    case h_2 =>
      split
      case h_1 arg heq => exact (monthlyNext_spec base arg hb).2.1
      case h_2 =>
        split
        case h_1 expr heq =>
          exact le_of_lt (calculateNextCronTime_spec base (trimChars expr) hb).2.1
        case h_2 => exact le_refl _

theorem nextReminder_weekly_lt (base : DateTime) (l : List Char) (td : Nat)
    (hb : base.Valid) (h1 : parseSimple l = none) (h2 : parseWeekly l = some td) :
    base.toSecs < (calculateNextReminderL base l).toSecs := by
  unfold calculateNextReminderL
  rw [h1, h2]
  simp only
  have h3 := addDays_spec
    (if (td + 7 - dayOfWeek base) % 7 = 0 then 7 else (td + 7 - dayOfWeek base) % 7)
    base hb
  by_cases hz : (td + 7 - dayOfWeek base) % 7 = 0
  · rw [if_pos hz] at h3 ⊢
    omega
  · rw [if_neg hz] at h3 ⊢
    have : 1 ≤ (td + 7 - dayOfWeek base) % 7 := by omega
    omega

theorem nextReminder_monthly (base : DateTime) (l : List Char) (arg : MonthlyArg)
    (hb : base.Valid) (h1 : parseSimple l = none) (h2 : parseWeekly l = none)
    (h3 : parseMonthly l = some arg) :
    base.toSecs ≤ (calculateNextReminderL base l).toSecs ∧
    (arg ≠ .day 0 → base.toSecs < (calculateNextReminderL base l).toSecs) := by
  unfold calculateNextReminderL
  rw [h1, h2, h3]
  simp only
  exact ⟨(monthlyNext_spec base arg hb).2.1, (monthlyNext_spec base arg hb).2.2⟩

theorem nextReminder_cron_lt (base : DateTime) (l : List Char) (expr : List Char)
    (hb : base.Valid) (h1 : parseSimple l = none) (h2 : parseWeekly l = none)
    (h3 : parseMonthly l = none) (h4 : parseCron l = some expr) :
    base.toSecs < (calculateNextReminderL base l).toSecs := by
  unfold calculateNextReminderL
  rw [h1, h2, h3, h4]
  simp only
  exact (calculateNextCronTime_spec base (trimChars expr) hb).2.1

theorem nextReminder_unrecognized (base : DateTime) (l : List Char)
    (h : recognizedRecurrence l = false) :
    calculateNextReminderL base l = base := by
  unfold recognizedRecurrence at h
  unfold calculateNextReminderL
  cases hps : parseSimple l with
  | some v => rw [hps] at h; simp at h
  | none =>
    rw [hps] at h
    cases hpw : parseWeekly l with
    | some v => rw [hpw] at h; simp at h
    | none =>
      rw [hpw] at h
      cases hpm : parseMonthly l with
      | some v => rw [hpm] at h; simp at h
      | none =>
        rw [hpm] at h
        cases hpc : parseCron l with
        | some v => rw [hpc] at h; simp at h
        | none => rfl

/-! ## Disjointness of the cron field pattern branches -/

theorem splitOnChar_ne_nil (c : Char) : ∀ l : List Char, splitOnChar c l ≠ [] := by
  intro l
  cases l with
  | nil => simp [splitOnChar]
  | cons a as =>
    unfold splitOnChar
    split
    · simp
    · split <;> simp

theorem splitOnChar_two_mem (c : Char) :
    ∀ l : List Char, 2 ≤ (splitOnChar c l).length → c ∈ l := by
  intro l
  induction l with
  | nil => intro h; simp [splitOnChar] at h
  | cons a as ih =>
    intro h
    unfold splitOnChar at h
    by_cases hac : a = c
    · rw [hac]
      exact List.mem_cons_self c as
    · rw [if_neg hac] at h
      refine List.mem_cons_of_mem a (ih ?_)
      rcases hsp : splitOnChar c as with _ | ⟨x, t⟩
      · exact absurd hsp (splitOnChar_ne_nil c as)
      · rw [hsp] at h
        simp only [List.length_cons] at h ⊢
        omega

theorem splitOnChar_one (c : Char) :
    ∀ l x : List Char, splitOnChar c l = [x] → l = x := by
  intro l
  induction l with
  | nil =>
    intro x h
    simp [splitOnChar] at h
    rw [h]
  | cons a as ih =>
    intro x h
    unfold splitOnChar at h
    by_cases hac : a = c
    · rw [if_pos hac] at h
      obtain ⟨h1, h2⟩ := List.cons.injEq _ _ _ _ ▸ h
      exact absurd h2 (splitOnChar_ne_nil c as)
    · rw [if_neg hac] at h
      rcases hsp : splitOnChar c as with _ | ⟨y, t⟩
      · exact absurd hsp (splitOnChar_ne_nil c as)
      · rw [hsp] at h
        obtain ⟨h1, h2⟩ := List.cons.injEq _ _ _ _ ▸ h
        rw [← h1, ih _ (by rw [hsp, h2])]

theorem splitOnChar_join (c : Char) :
    ∀ l x y : List Char, splitOnChar c l = [x, y] → l = x ++ c :: y := by
  intro l
  induction l with
  | nil => intro x y h; simp [splitOnChar] at h
  | cons a as ih =>
    intro x y h
    unfold splitOnChar at h
    by_cases hac : a = c
    · rw [if_pos hac] at h
      obtain ⟨h1, h2⟩ := List.cons.injEq _ _ _ _ ▸ h
      rw [← h1, hac, splitOnChar_one c as y h2]
      rfl
    · rw [if_neg hac] at h
      rcases hsp : splitOnChar c as with _ | ⟨z, t⟩
      · exact absurd hsp (splitOnChar_ne_nil c as)
      · rw [hsp] at h
        obtain ⟨h1, h2⟩ := List.cons.injEq _ _ _ _ ▸ h
        have has := ih z y (by rw [hsp, h2])
        rw [← h1, has]
        rfl

theorem digitsToNat?_all_digits (l : List Char) (k : Nat)
    (h : digitsToNat? l = some k) : l ≠ [] ∧ ∀ c ∈ l, c.isDigit = true := by
  unfold digitsToNat? at h
  split at h
  · next hcond => exact ⟨hcond.1, fun c hc => List.all_eq_true.mp hcond.2 c hc⟩
  · cases h

theorem parseRange_parts (l : List Char) (ab : Nat × Nat)
    (h : parseRange l = some ab) :
    ∃ u v, splitOnChar '-' l = [u, v] ∧
      digitsToNat? u = some ab.1 ∧ digitsToNat? v = some ab.2 := by
  unfold parseRange at h
  split at h
  case h_1 u v heq =>
    split at h
    case h_1 a b ha hb =>
      refine ⟨u, v, heq, ?_, ?_⟩
      · rw [ha]
        cases h
        rfl
      · rw [hb]
        cases h
        rfl
    case h_2 => cases h
  case h_2 => cases h

theorem parseStep_parts (l : List Char) (p : StepBase × Nat)
    (h : parseStep l = some p) : ∃ x y, splitOnChar '/' l = [x, y] := by
  unfold parseStep at h
  split at h
  case h_1 x y heq => exact ⟨x, y, heq⟩
  case h_2 => cases h

theorem parseStep_excl (l : List Char) (p : StepBase × Nat)
    (h : parseStep l = some p) :
    digitsToNat? l = none ∧ parseRange l = none ∧ l ≠ ['*'] := by
  obtain ⟨x, y, hxy⟩ := parseStep_parts l p h
  have hmem : '/' ∈ l := splitOnChar_two_mem '/' l (by rw [hxy]; simp)
  refine ⟨?_, ?_, ?_⟩
  · cases hd : digitsToNat? l with
    | none => rfl
    | some k =>
      have hdig := (digitsToNat?_all_digits l k hd).2 _ hmem
      simp at hdig
  · cases hr : parseRange l with
    | none => rfl
    | some ab =>
      obtain ⟨u, v, huv, hdu, hdv⟩ := parseRange_parts l ab hr
      have hl := splitOnChar_join '-' l u v huv
      rw [hl] at hmem
      rcases List.mem_append.mp hmem with hm | hm
      · have := (digitsToNat?_all_digits u _ hdu).2 _ hm
        simp at this
      · rcases List.mem_cons.mp hm with hm1 | hm2
        · cases hm1
        · have := (digitsToNat?_all_digits v _ hdv).2 _ hm2
          simp at this
  · intro hl
    rw [hl] at hmem
    simp at hmem

theorem nextReminder_simple_lt (base : DateTime) (l : List Char) (n : Nat) (u : Char)
    (hb : base.Valid) (hp : parseSimple l = some (n, u)) (hn : 1 ≤ n) :
    base.toSecs < (calculateNextReminderL base l).toSecs := by
  have heq := nextReminder_simple_eq base l n u hb hp
  rw [heq]
  unfold unitSecs
  by_cases hm : u = 'm'
  · rw [if_pos hm]
    omega
  · rw [if_neg hm]
    by_cases hh : u = 'h'
    · rw [if_pos hh]
      omega
    · rw [if_neg hh]
      omega

/-! ## One-shot tasks fire at most once -/

theorem fireCount_notified : ∀ (nows : List DateTime) (t : Task),
    t.notified = true → fireCount nows t = 0 := by
  intro nows
  induction nows with
  | nil => intro t _; rfl
  | cons now rest ih =>
    intro t ht
    unfold fireCount
    have hdue : isDue now t = false := by
      unfold isDue
      rw [ht]
      simp
    rw [if_neg (by simp [hdue])]
    exact ih t ht

theorem fireCount_le_one : ∀ (nows : List DateTime) (t : Task),
    t.recurringInterval = none → fireCount nows t ≤ 1 := by
  intro nows
  induction nows with
  | nil => intro t _; simp [fireCount]
  | cons now rest ih =>
    intro t hr
    unfold fireCount
    by_cases hdue : isDue now t = true
    · rw [if_pos hdue]
      have hzero : fireCount rest (fireTask t) = 0 := by
        apply fireCount_notified
        unfold fireTask
        rw [hr]
      omega
    · rw [if_neg hdue]
      exact ih t hr

/-! ## Claim C1 -/

/-- C1: the spec says `Monthly{day}` clamps to the next month's length, with
scenario 2024-01-31 + `monthly:31` ↦ 2024-02-29, and that `Monthly{Last}`
lands on the final day of the month following the base's month.  The code's
own comment says "Set to last day of month", and its `Math.min(day,
lastDayOfMonth)` clamp shows the same intent — but `setMonth(+1)` runs before
the clamp, so a day-of-month exceeding the next month's length overflows
through it: 2024-01-31 + `monthly:31` yields 2024-03-31, not 2024-02-29, and
`monthly:last` from 2024-01-15 yields 2024-03-02, which is the last day of no
month.  The claim (and the code's comment) state the intent; the code is a
slip. -/
theorem c1_monthly_clamp_code_bug :
    calculateNextReminder ⟨2024, 1, 31, 9, 0, 0⟩ "monthly:31" = ⟨2024, 3, 31, 9, 0, 0⟩ ∧
    calculateNextReminder ⟨2024, 1, 31, 9, 0, 0⟩ "monthly:31" ≠ ⟨2024, 2, 29, 9, 0, 0⟩ ∧
    calculateNextReminder ⟨2024, 1, 15, 9, 0, 0⟩ "monthly:last" = ⟨2024, 3, 2, 9, 0, 0⟩ := by
  refine ⟨by decide, by decide, by decide⟩

/-! ## Claim C3 -/

/-- C3, counterexample: `"xyz"` is accepted by no recurrence grammar, yet
`addTask` stores the task and creation succeeds — nothing on the creation
path validates the recurrence string. -/
theorem c3_no_validation_counterexample :
    recognizedRecurrence "xyz".toList = false ∧
    (addTask [] "buy milk" "reminder" ⟨2024, 1, 15, 9, 0, 0⟩ (some "xyz") "id-1").1 =
      [{ id := "id-1", content := "buy milk", title := "reminder",
         remindAt := ⟨2024, 1, 15, 9, 0, 0⟩, completed := false, notified := false,
         recurringInterval := some "xyz", snoozedUntil := none }] := by
  refine ⟨by decide, by decide⟩

/-- C3, amended: `addTask` performs no validation — for every recurrence
string the task is stored (prepended to the table) with `notified = false`,
and a malformed recurrence therefore reaches the scanner, where
`calculateNextReminder` returns the base time unchanged for every string no
recurrence pattern accepts. -/
theorem c3_addTask_no_validation
    (tasks : List Task) (content title : String) (remindAt : DateTime)
    (rec : Option String) (id : String) :
    (addTask tasks content title remindAt rec id).1 =
      (addTask tasks content title remindAt rec id).2 :: tasks ∧
    (addTask tasks content title remindAt rec id).2.recurringInterval = rec ∧
    (addTask tasks content title remindAt rec id).2.notified = false ∧
    (∀ (base : DateTime) (l : List Char), recognizedRecurrence l = false →
      calculateNextReminderL base l = base) := by
  exact ⟨rfl, rfl, rfl, nextReminder_unrecognized⟩

/-- C3, witness for the amended theorem at a concrete instance. -/
theorem c3_addTask_no_validation_witness :
    calculateNextReminderL ⟨2024, 3, 1, 8, 0, 0⟩ "blah".toList = ⟨2024, 3, 1, 8, 0, 0⟩ :=
  (c3_addTask_no_validation [] "" "" ⟨2024, 3, 1, 8, 0, 0⟩ none "").2.2.2
    ⟨2024, 3, 1, 8, 0, 0⟩ "blah".toList (by decide)

/-! ## Claim C9 -/

/-- C9, counterexample: `"0m"` parses as the interval `Interval{0, Minute}`
(the data model allows `amount : uint`), and `next(t, 0m) = t`, so
`next(t, spec) > t` fails for this interval spec. -/
theorem c9_zero_interval_counterexample :
    parseSimple "0m".toList = some (0, 'm') ∧
    calculateNextReminder ⟨2024, 1, 31, 9, 0, 0⟩ "0m" = ⟨2024, 1, 31, 9, 0, 0⟩ := by
  refine ⟨by decide, by decide⟩

/-- C9, amended: for every interval spec `n` `unit` (a string matching
`/^(\d+)([hmd])$/`) and valid base `t`, `next(t, spec)` equals `t` shifted by
exactly `n` units, and when `n ≥ 1` it is strictly greater than `t`; for
`n = 0` it equals `t`. -/
theorem c9_interval_shift (base : DateTime) (l : List Char) (n : Nat) (u : Char)
    (hb : base.Valid) (hp : parseSimple l = some (n, u)) :
    (calculateNextReminderL base l).toSecs = base.toSecs + (n : Int) * unitSecs u ∧
    (1 ≤ n → base.toSecs < (calculateNextReminderL base l).toSecs) := by
  have heq := nextReminder_simple_eq base l n u hb hp
  refine ⟨heq, fun hn => ?_⟩
  rw [heq]
  unfold unitSecs
  by_cases hm : u = 'm'
  · rw [if_pos hm]
    omega
  · rw [if_neg hm]
    by_cases hh : u = 'h'
    · rw [if_pos hh]
      omega
    · rw [if_neg hh]
      omega

/-- C9, witness for the amended theorem at a concrete instance. -/
theorem c9_interval_shift_witness :
    (calculateNextReminderL ⟨2024, 1, 15, 9, 0, 0⟩ "5m".toList).toSecs =
      (⟨2024, 1, 15, 9, 0, 0⟩ : DateTime).toSecs + (5 : Nat) * unitSecs 'm' :=
  (c9_interval_shift ⟨2024, 1, 15, 9, 0, 0⟩ "5m".toList 5 'm' (by decide) (by decide)).1

/-! ## Claim C2 -/

/-- C2, counterexample: for the one-based month field (range 1..12), the
pattern `*​/5` and value 6 have offset `6 - 1 = 5` from the range start, a
multiple of 5, yet the field does not match; value 5 has offset 4, not a
multiple of 5, yet the field matches — the code computes `value % n`, offset
from 0, not from the field's minimum. -/
theorem c2_step_offset_counterexample :
    matchesCronField "*/5" 6 1 12 = false ∧ (6 - 1) % 5 = 0 ∧
    matchesCronField "*/5" 5 1 12 = true ∧ (5 - 1) % 5 ≠ 0 := by
  refine ⟨by decide, by decide, by decide, by decide⟩

/-- C2, amended: a step field `a-b/n` matches `v` exactly when `a ≤ v ≤ b`
and `v - a` is a multiple of `n` (with `n > 0`; `n = 0` never matches, the JS
`NaN`); a step field `*​/n` matches `v` exactly when `v` itself is a multiple
of `n` — the offset is measured from 0 and not from the field's minimum, so
for one-based fields `*​/n` does not implement offset-from-range-start
semantics. -/
theorem c2_step_semantics (l : List Char) (v mn mx : Nat) :
    (∀ n, parseStep l = some (.star, n) →
        (matchesCronFieldL l v mn mx = true ↔ 0 < n ∧ v % n = 0)) ∧
    (∀ a b n, parseStep l = some (.range a b, n) →
        (matchesCronFieldL l v mn mx = true ↔
          0 < n ∧ a ≤ v ∧ v ≤ b ∧ (v - a) % n = 0)) := by
  constructor
  · intro n hp
    obtain ⟨hd, hr, hstar⟩ := parseStep_excl l _ hp
    unfold matchesCronFieldL
    rw [if_neg hstar, hd, hr, hp]
    simp only [stepMatches, Bool.and_eq_true, decide_eq_true_eq, beq_iff_eq, ne_eq]
    omega
  · intro a b n hp
    obtain ⟨hd, hr, hstar⟩ := parseStep_excl l _ hp
    unfold matchesCronFieldL
    rw [if_neg hstar, hd, hr, hp]
    simp only [stepMatches, Bool.and_eq_true, decide_eq_true_eq, beq_iff_eq, ne_eq]
    omega

/-- C2, witness for the amended theorem at concrete instances. -/
theorem c2_step_semantics_witness :
    matchesCronFieldL "*/4".toList 8 0 59 = true ∧
    matchesCronFieldL "1-10/3".toList 7 1 31 = true := by
  constructor
  · exact ((c2_step_semantics "*/4".toList 8 0 59).1 4 (by decide)).mpr (by decide)
  · exact ((c2_step_semantics "1-10/3".toList 7 1 31).2 1 10 3 (by decide)).mpr (by decide)

/-! ## Claim C4 -/

/-- C4, counterexample: a due task with the recurrence `"0m"` (a well-formed
interval with zero amount) is advanced to `next(remindAt, "0m") = remindAt`:
its trigger time does not strictly increase after the fire. -/
theorem c4_zero_interval_counterexample :
    isDue ⟨2024, 1, 15, 9, 0, 30⟩
      { id := "t0", content := "c", title := "T", remindAt := ⟨2024, 1, 15, 9, 0, 0⟩,
        completed := false, notified := false, recurringInterval := some "0m",
        snoozedUntil := none } = true ∧
    (scanStep ⟨2024, 1, 15, 9, 0, 30⟩
      { id := "t0", content := "c", title := "T", remindAt := ⟨2024, 1, 15, 9, 0, 0⟩,
        completed := false, notified := false, recurringInterval := some "0m",
        snoozedUntil := none }).remindAt = ⟨2024, 1, 15, 9, 0, 0⟩ := by
  refine ⟨by decide, by decide⟩

/-- C4, amended: a task fired with a non-empty recurrence string has its
trigger replaced by `next(triggerAt, recurrence)` with `notified` reset to
`false`, and the new trigger never decreases — it strictly increases when the
recurrence is an interval with positive amount, a weekly day, a monthly day
other than 0 (or `last`), or a `cron:` expression; a recurrence stored as the
empty string is coerced to null by `getDueTasks` and treated as unset; a
fired one-shot task gets `notified = true` and fires at most once across any
sequence of scans. -/
theorem c4_scanner_advance :
    (∀ (now : DateTime) (t : Task) (r : String), isDue now t = true →
        t.recurringInterval = some r → r ≠ "" →
        scanStep now t = { t with remindAt := calculateNextReminder t.remindAt r,
                                  notified := false }) ∧
    (∀ (now : DateTime) (t : Task), isDue now t = true →
        t.recurringInterval = some "" →
        scanStep now t = { t with notified := true }) ∧
    (∀ (now : DateTime) (t : Task), isDue now t = true → t.recurringInterval = none →
        scanStep now t = { t with notified := true }) ∧
    (∀ (base : DateTime) (s : String), base.Valid →
        base.toSecs ≤ (calculateNextReminder base s).toSecs) ∧
    (∀ (base : DateTime) (l : List Char), base.Valid →
        ((∃ n u, parseSimple l = some (n, u) ∧ 1 ≤ n) ∨
         (parseSimple l = none ∧ (parseWeekly l).isSome = true) ∨
         (parseSimple l = none ∧ parseWeekly l = none ∧
           ∃ arg, parseMonthly l = some arg ∧ arg ≠ MonthlyArg.day 0) ∨
         (parseSimple l = none ∧ parseWeekly l = none ∧ parseMonthly l = none ∧
           (parseCron l).isSome = true)) →
        base.toSecs < (calculateNextReminderL base l).toSecs) ∧
    (∀ (nows : List DateTime) (t : Task), t.recurringInterval = none →
        fireCount nows t ≤ 1) := by
  refine ⟨?_, ?_, ?_, ?_, ?_, fireCount_le_one⟩
  · intro now t r hdue hrec hne
    unfold scanStep
    rw [if_pos hdue]
    unfold fireTask
    rw [hrec]
    simp only
    rw [if_neg hne]
  · intro now t hdue hrec
    unfold scanStep
    rw [if_pos hdue]
    unfold fireTask
    rw [hrec]
    simp only
    rw [if_pos trivial]
  · intro now t hdue hrec
    unfold scanStep
    rw [if_pos hdue]
    unfold fireTask
    rw [hrec]
  · intro base s hb
    exact nextReminder_ge base s.toList hb
  · intro base l hb hcase
    rcases hcase with ⟨n, u, hp, hn⟩ | ⟨h1, hw⟩ | ⟨h1, h2, arg, hm, harg⟩ |
      ⟨h1, h2, h3, hc⟩
    · exact nextReminder_simple_lt base l n u hb hp hn
    · obtain ⟨td, htd⟩ := Option.isSome_iff_exists.mp hw
      exact nextReminder_weekly_lt base l td hb h1 htd
    · exact (nextReminder_monthly base l arg hb h1 h2 hm).2 harg
    · obtain ⟨expr, hexpr⟩ := Option.isSome_iff_exists.mp hc
      exact nextReminder_cron_lt base l expr hb h1 h2 h3 hexpr

/-- C4, witness for the amended theorem at a concrete instance. -/
theorem c4_scanner_advance_witness :
    scanStep ⟨2024, 1, 15, 9, 1, 0⟩
      { id := "w", content := "c", title := "T", remindAt := ⟨2024, 1, 15, 9, 0, 0⟩,
        completed := false, notified := false, recurringInterval := none,
        snoozedUntil := none } =
      { id := "w", content := "c", title := "T", remindAt := ⟨2024, 1, 15, 9, 0, 0⟩,
        completed := false, notified := true, recurringInterval := none,
        snoozedUntil := none } :=
  c4_scanner_advance.2.2.1 ⟨2024, 1, 15, 9, 1, 0⟩
    { id := "w", content := "c", title := "T", remindAt := ⟨2024, 1, 15, 9, 0, 0⟩,
      completed := false, notified := false, recurringInterval := none,
      snoozedUntil := none } (by decide) rfl

/-! ## Claim C5 -/

/-- C5, counterexample: the scan does not return the earliest matching
instant.  From 2024-01-31T09:07 with `0 0 1 2 *` (midnight of February 1st),
the month-advance `setMonth(+1)` overflows Jan 31 through short February into
March before `setDate(1)` runs, so the whole of February 2024 is skipped and
the scan returns 2025-02-01T00:00 although 2024-02-01T00:00 is strictly
earlier, strictly after the base, and matches all five fields. -/
theorem c5_not_earliest_counterexample :
    calculateNextCronTime ⟨2024, 1, 31, 9, 7, 0⟩ "0 0 1 2 *".toList =
      ⟨2025, 2, 1, 0, 0, 0⟩ ∧
    wordsOf "0 0 1 2 *".toList =
      ["0".toList, "0".toList, "1".toList, "2".toList, "*".toList] ∧
    cronMatchesAt "0".toList "0".toList "1".toList "2".toList "*".toList
      ⟨2024, 2, 1, 0, 0, 0⟩ = true ∧
    (⟨2024, 1, 31, 9, 7, 0⟩ : DateTime).toSecs < (⟨2024, 2, 1, 0, 0, 0⟩ : DateTime).toSecs ∧
    (⟨2024, 2, 1, 0, 0, 0⟩ : DateTime).toSecs < (⟨2025, 2, 1, 0, 0, 0⟩ : DateTime).toSecs := by
  refine ⟨by decide, by decide, by decide, by decide, by decide⟩

/-- C5, amended: for every valid base and cron expression, the result is
strictly after the base; it either satisfies all five fields (when the
five-field scan finds a match within the bound — though not necessarily the
earliest such instant, since the month-advance can overshoot a short month)
or equals `base + 1 hour` (non-five-field expressions and scan exhaustion);
re-querying from the result is again strictly later, and `*​/15 * * * *` from
09:07 yields 09:15. -/
theorem c5_cron_next :
    (∀ (base : DateTime) (expr : List Char), base.Valid →
      (calculateNextCronTime base expr).Valid ∧
      base.toSecs < (calculateNextCronTime base expr).toSecs ∧
      ((∃ mi h d mo dw, wordsOf expr = [mi, h, d, mo, dw] ∧
          cronMatchesAt mi h d mo dw (calculateNextCronTime base expr) = true) ∨
        calculateNextCronTime base expr = addHours base 1) ∧
      (calculateNextCronTime base expr).toSecs <
        (calculateNextCronTime (calculateNextCronTime base expr) expr).toSecs) ∧
    calculateNextCronTime ⟨2024, 1, 15, 9, 7, 0⟩ "*/15 * * * *".toList =
      ⟨2024, 1, 15, 9, 15, 0⟩ := by
  constructor
  · intro base expr hb
    obtain ⟨hv, hlt, hmatch⟩ := calculateNextCronTime_spec base expr hb
    exact ⟨hv, hlt, hmatch, (calculateNextCronTime_spec _ expr hv).2.1⟩
  · decide

/-- C5, witness for the amended theorem at a concrete instance. -/
theorem c5_cron_next_witness :
    (⟨2024, 1, 15, 9, 7, 0⟩ : DateTime).toSecs <
      (calculateNextCronTime ⟨2024, 1, 15, 9, 7, 0⟩ "*/15 * * * *".toList).toSecs :=
  (c5_cron_next.1 ⟨2024, 1, 15, 9, 7, 0⟩ "*/15 * * * *".toList (by decide)).2.1

/-! ## Claim C6 -/

/-- C6, counterexample: a tick that emits a text capture leaves
`lastImageHash` untouched, so after this emitted event the two dedup trackers
are not resynchronized together — the image tracker still holds `"h"` while
the current external clipboard holds no image (tracker value `""`). -/
theorem c6_tracker_divergence_counterexample :
    (watcherTick
      { lastContent := "a", lastImageHash := "h", paused := false,
        ignoreNextChange := false }
      { text := "b", image := none }).2 = some (.text "b") ∧
    (watcherTick
      { lastContent := "a", lastImageHash := "h", paused := false,
        ignoreNextChange := false }
      { text := "b", image := none }).1.lastImageHash = "h" ∧
    currentImageHash { text := "b", image := none } = "" ∧
    ("h" : String) ≠ "" := by
  refine ⟨by decide, by decide, by decide, by decide⟩

/-- C6, amended: only the ticks that go through the image path resynchronize
both trackers.  A suppressed tick with an image present, and an
image-emitting tick, update `lastImageHash` and `lastContent` together to the
current clipboard content; a suppressed tick with no image present and a
text-emitting tick update `lastContent` only, leaving `lastImageHash` at its
previous value (stale if an image was last seen earlier). -/
theorem c6_tick_tracker_resync (s : WatcherState) (c : ClipboardRead)
    (hp : s.paused = false) :
    (s.ignoreNextChange = true → ∀ img, c.image = some img →
        (watcherTick s c).1.lastContent = c.text ∧
        (watcherTick s c).1.lastImageHash = currentImageHash c) ∧
    (s.ignoreNextChange = true → c.image = none →
        (watcherTick s c).1.lastContent = c.text ∧
        (watcherTick s c).1.lastImageHash = s.lastImageHash) ∧
    (s.ignoreNextChange = false → ∀ img, c.image = some img →
        getImageHash img ≠ s.lastImageHash →
        (watcherTick s c).2.isSome = true ∧
        (watcherTick s c).1.lastContent = c.text ∧
        (watcherTick s c).1.lastImageHash = currentImageHash c) ∧
    (s.ignoreNextChange = false → c.image = none → c.text ≠ "" →
        c.text ≠ s.lastContent →
        (watcherTick s c).2 = some (.text c.text) ∧
        (watcherTick s c).1.lastContent = c.text ∧
        (watcherTick s c).1.lastImageHash = s.lastImageHash) := by
  refine ⟨?_, ?_, ?_, ?_⟩
  · intro hig img himg
    simp [watcherTick, currentImageHash, hp, hig, himg]
  · intro hig himg
    simp [watcherTick, currentImageHash, hp, hig, himg]
  · intro hig img himg hhash
    simp [watcherTick, currentImageHash, hp, hig, himg, hhash]
  · intro hig himg ht1 ht2
    simp [watcherTick, currentImageHash, hp, hig, himg, ht1, ht2]

/-- C6, witness for the amended theorem at a concrete instance. -/
theorem c6_tick_tracker_resync_witness :
    (watcherTick
      { lastContent := "x", lastImageHash := "old", paused := false,
        ignoreNextChange := true }
      { text := "y", image := none }).1.lastImageHash = "old" :=
  ((c6_tick_tracker_resync
    { lastContent := "x", lastImageHash := "old", paused := false,
      ignoreNextChange := true }
    { text := "y", image := none } rfl).2.1 rfl rfl).2

/-! ## Claim C7 -/

/-- C7, counterexample: the tick body has no `try`/`catch`, so a clipboard
read that fails by throwing escapes the watcher boundary (the tick's error
component is the thrown exception), contradicting "never throws past the
watcher boundary". -/
theorem c7_read_throw_counterexample :
    (watcherTickE
      { lastContent := "a", lastImageHash := "", paused := false,
        ignoreNextChange := false }
      (.error { message := "clipboard read failed" }) (.ok "a")).2.2 =
      some { message := "clipboard read failed" } := by
  decide

/-- C7, amended: a clipboard read that fails by throwing propagates out of
the tick (with the watcher state unchanged, since `readImage()` runs before
any state write); when both reads succeed no exception escapes, and a
successful read showing unchanged content (no image, text empty or equal to
the tracker, `ignoreNext` clear) emits nothing and leaves the state
untouched. -/
theorem c7_tick_failure_semantics (s : WatcherState) (img : Option NativeImage)
    (txt : String) :
    ((watcherTickE s (.ok img) (.ok txt)).2.2 = none) ∧
    (∀ e rt, s.paused = false →
        watcherTickE s (.error e) rt = (s, none, some e)) ∧
    (s.ignoreNextChange = false → img = none → (txt = "" ∨ txt = s.lastContent) →
        watcherTickE s (.ok img) (.ok txt) = (s, none, none)) := by
  refine ⟨?_, ?_, ?_⟩
  · by_cases hp : s.paused
    · simp [watcherTickE, hp]
    · rcases himg : img with _ | i
      · by_cases hig : s.ignoreNextChange
        · simp [watcherTickE, hp, hig]
        · by_cases ht : txt ≠ "" ∧ txt ≠ s.lastContent
          · simp [watcherTickE, hp, hig, ht]
          · simp [watcherTickE, hp, hig, ht]
      · by_cases hig : s.ignoreNextChange
        · simp [watcherTickE, hp, hig]
        · by_cases hh : getImageHash i ≠ s.lastImageHash
          · simp [watcherTickE, hp, hig, hh]
          · by_cases ht : txt ≠ "" ∧ txt ≠ s.lastContent
            · simp [watcherTickE, hp, hig, hh, ht]
            · simp [watcherTickE, hp, hig, hh, ht]
  · intro e rt hp
    simp [watcherTickE, hp]
  · intro hig himg ht
    have ht' : ¬(txt ≠ "" ∧ txt ≠ s.lastContent) := by
      rcases ht with h | h <;> simp [h]
    by_cases hp : s.paused
    · simp [watcherTickE, hp]
    · simp [watcherTickE, hp, hig, himg, ht']

/-- C7, witness for the amended theorem at a concrete instance. -/
theorem c7_tick_failure_semantics_witness :
    watcherTickE
      { lastContent := "a", lastImageHash := "", paused := false,
        ignoreNextChange := false }
      (.error { message := "boom" }) (.ok "a") =
      ({ lastContent := "a", lastImageHash := "", paused := false,
         ignoreNextChange := false }, none, some { message := "boom" }) :=
  (c7_tick_failure_semantics
    { lastContent := "a", lastImageHash := "", paused := false,
      ignoreNextChange := false } none "a").2.1 { message := "boom" } (.ok "a") rfl

/-! ## Claim C8 -/

/-- C8, counterexample: a focus-lost event 300 ms after a hotkey-show is
outside the 200 ms debounce window, so the claim demands a transition to
Hidden; but the show path also sets `isToggling`, which is only cleared by a
500 ms timer, so the blur handler ignores the event and the window stays
visible. -/
theorem c8_blur_at_300ms_counterexample :
    (blurStep
      (stateAfterShow
        { visible := false, isToggling := false, lastToggleTime := -100000 } 0 300)
      300).visible = true ∧
    (300 : Int) - 0 ≥ 200 := by
  refine ⟨by decide, by decide⟩

/-- C8, amended: after a hotkey-show at `T`, a focus-lost event at `now` is
ignored (the state is unchanged) exactly when `now < T + 500` — the
`isToggling` flag, cleared by a 500 ms timer, subsumes the 200 ms
`lastToggleAt` debounce window — and causes a hide otherwise; in particular a
blur 50 ms after the show is ignored and one 500 ms after causes a hide. -/
theorem c8_blur_debounce (s : ToggleState) (T now : Int) :
    (T ≤ now → now - T < 500 →
        blurStep (stateAfterShow s T now) now = stateAfterShow s T now ∧
        (blurStep (stateAfterShow s T now) now).visible = true) ∧
    (now - T ≥ 500 → (blurStep (stateAfterShow s T now) now).visible = false) ∧
    (blurStep (stateAfterShow s T (T + 50)) (T + 50)).visible = true ∧
    (blurStep (stateAfterShow s T (T + 500)) (T + 500)).visible = false := by
  refine ⟨?_, ?_, ?_, ?_⟩
  · intro h1 h2
    unfold stateAfterShow
    rw [if_neg (by omega)]
    unfold blurStep hotkeyShow
    rw [if_pos (by simp)]
    exact ⟨rfl, rfl⟩
  · intro h1
    unfold stateAfterShow
    rw [if_pos (by omega)]
    unfold blurStep resetToggling hotkeyShow
    rw [if_neg (by simp; omega)]
  · unfold stateAfterShow
    rw [if_neg (by omega)]
    unfold blurStep hotkeyShow
    rw [if_pos (by simp)]
  · unfold stateAfterShow
    rw [if_pos (by omega)]
    unfold blurStep resetToggling hotkeyShow
    rw [if_neg (by simp)]

/-- C8, witness for the amended theorem at a concrete instance. -/
theorem c8_blur_debounce_witness :
    (blurStep
      (stateAfterShow
        { visible := false, isToggling := false, lastToggleTime := 0 } 1000 1600)
      1600).visible = false :=
  (c8_blur_debounce
    { visible := false, isToggling := false, lastToggleTime := 0 } 1000 1600).2.1
    (by omega)

/-! ## Claim C10 -/

/-- C10, counterexample under the claim's reading of image equality as
equality of (possibly absent) image data: the most recent stored image row
holds no image data (`NULL`), the call passes no image data (`undefined`),
their image data are equal as optional values — yet `addClip` inserts a new
row (JS `null === undefined` is false), so the table is not left unchanged
and the returned id is not empty. -/
theorem c10_absent_image_data_counterexample :
    specKindEqual .image "Image (2x2)" none
      { id := "id-1", content := "Image (2x2)", type := .image, imageData := none,
        createdAt := "2024-01-01T00:00:00.000Z" } = true ∧
    (addClip
      [{ id := "id-1", content := "Image (2x2)", type := .image, imageData := none,
         createdAt := "2024-01-01T00:00:00.000Z" }]
      "Image (2x2)" 100 .image none "id-2" "2024-01-02T00:00:00.000Z").1 ≠
      [{ id := "id-1", content := "Image (2x2)", type := .image, imageData := none,
         createdAt := "2024-01-01T00:00:00.000Z" }] ∧
    (addClip
      [{ id := "id-1", content := "Image (2x2)", type := .image, imageData := none,
         createdAt := "2024-01-01T00:00:00.000Z" }]
      "Image (2x2)" 100 .image none "id-2" "2024-01-02T00:00:00.000Z").2.id = "id-2" := by
  refine ⟨by decide, by decide, by decide⟩

/-- C10, amended: when `addClip` is called with content equal to the most
recent stored clip under content-kind-specific equality — matching kind, text
compared by content, and images compared by image data *with the data present
on both sides* (a call or row with absent image data never deduplicates) —
the table is left entirely unchanged, nothing is inserted or evicted, and
the returned `Clip` carries the empty string as its id. -/
theorem c10_addClip_duplicate (db : List ClipRow) (content : String) (maxClips : Nat)
    (ctype : ClipType) (imageData : Option String) (id now : String) (r : ClipRow)
    (hhead : db.head? = some r) (hkind : ctype = r.type)
    (heq : match ctype with
           | .text => content = r.content
           | .image => ∃ d, imageData = some d ∧ r.imageData = some d) :
    (addClip db content maxClips ctype imageData id now).1 = db ∧
    (addClip db content maxClips ctype imageData id now).2.id = "" := by
  have hguard : addClipDupGuard ctype content imageData db.head? = true := by
    rw [hhead]
    unfold addClipDupGuard
    cases ctype with
    | text =>
      simp only at heq
      simp [heq, ← hkind]
    | image =>
      obtain ⟨d, hd1, hd2⟩ := heq
      simp [jsStrictEqOpt, hd1, hd2, ← hkind]
  unfold addClip
  rw [if_pos hguard]
  exact ⟨rfl, rfl⟩

/-- C10, witness for the amended theorem at a concrete instance. -/
theorem c10_addClip_duplicate_witness :
    (addClip
      [{ id := "id-1", content := "hello", type := .text, imageData := none,
         createdAt := "2024-01-01T00:00:00.000Z" }]
      "hello" 100 .text none "id-2" "2024-01-02T00:00:00.000Z").1 =
      [{ id := "id-1", content := "hello", type := .text, imageData := none,
         createdAt := "2024-01-01T00:00:00.000Z" }] :=
  (c10_addClip_duplicate
    [{ id := "id-1", content := "hello", type := .text, imageData := none,
       createdAt := "2024-01-01T00:00:00.000Z" }]
    "hello" 100 .text none "id-2" "2024-01-02T00:00:00.000Z"
    { id := "id-1", content := "hello", type := .text, imageData := none,
      createdAt := "2024-01-01T00:00:00.000Z" } rfl rfl rfl).1

end Recall
